import Mathlib

/-!
Shallow embedding of the quadas_agent pipeline core (src/main.py):
`number_lines`, `extract_evidence_from_line_ids`, `must_json`, and the
evidence-assembly step of `main`.  Text is modelled as `List Char`;
Python dicts with integer keys become association lists built in key
order; fallible parsing returns `Option` / `Except`.
-/

/-- Python whitespace characters stripped by `str.strip()` (ASCII subset). -/
def isPySpace (c : Char) : Bool :=
  c = ' ' || c = '\t' || c = '\n' || c = '\r' || c = '\x0b' || c = '\x0c'

/-- Python `s.strip()`: drop leading and trailing whitespace. -/
def pyStrip (s : List Char) : List Char :=
  ((s.dropWhile isPySpace).reverse.dropWhile isPySpace).reverse

/-- Python splitting of text on the newline character: keeps empty
pieces, and the empty string yields one empty piece. -/
def splitOnNl : List Char → List (List Char)
  | [] => [[]]
  | c :: cs =>
    if c = '\n' then [] :: splitOnNl cs
    else
      match splitOnNl cs with
      | [] => [[c]]
      | l :: ls => (c :: l) :: ls

/-- Python joining of pieces with the newline character. -/
def joinNl : List (List Char) → List Char
  | [] => []
  | [l] => l
  | l :: ls => l ++ '\n' :: joinNl ls

/-- Decimal digit character for a digit value below ten. -/
def digitChar (n : Nat) : Char :=
  match n with
  | 0 => '0' | 1 => '1' | 2 => '2' | 3 => '3' | 4 => '4'
  | 5 => '5' | 6 => '6' | 7 => '7' | 8 => '8' | _ => '9'

/-- Fuelled decimal rendering; fuel `n + 1` always suffices since the
number of digits of `n` is at most `n + 1`. -/
def natDigitsAux : Nat → Nat → List Char
  | 0, _ => []
  | fuel + 1, n =>
    if n < 10 then [digitChar n]
    else natDigitsAux fuel (n / 10) ++ [digitChar (n % 10)]

/-- Decimal rendering of a natural number, as Python formats an int. -/
def natDigits (n : Nat) : List Char := natDigitsAux (n + 1) n

/-- The `[LINE_i] ` marker prefixed to line `i` in `number_lines`. -/
def lineTag (i : Nat) : List Char :=
  "[LINE_".data ++ natDigits i ++ "] ".data

/-- The loop body of `number_lines`: numbers `lines` starting at index `i`,
returning the rendered lines and the (id, stripped text) association list. -/
def numberAux (i : Nat) : List (List Char) → List (List Char) × List (Nat × List Char)
  | [] => ([], [])
  | l :: ls =>
    let rest := numberAux (i + 1) ls
    ((lineTag i ++ l) :: rest.1, (i, pyStrip l) :: rest.2)

/-- `number_lines(text)` from src/main.py: split on newline, prefix each line
with its 1-based `[LINE_i] ` marker, and map each id to the stripped line. -/
def number_lines (text : List Char) : List Char × List (Nat × List Char) :=
  let r := numberAux 1 (splitOnNl text)
  (joinNl r.1, r.2)

/-- An evidence record as built by `extract_evidence_from_line_ids`. -/
structure EvidenceRecord where
  quote : List Char
  location : List Char
  topic : List Char
deriving DecidableEq, Repr

/-- The location string built for line id `i`: the word Line, a space,
and the decimal id. -/
def lineLocation (i : Nat) : List Char :=
  "Line ".data ++ natDigits i

/-- `extract_evidence_from_line_ids(line_ids, line_map, topic)` from
src/main.py: keep ids that are keys of the map with truthy (non-empty)
text, in input order. -/
def extract_evidence_from_line_ids (line_ids : List Nat)
    (line_map : List (Nat × List Char)) (topic : List Char) : List EvidenceRecord :=
  match line_ids with
  | [] => []
  | id :: rest =>
    match line_map.lookup id with
    | some q =>
      if q ≠ [] then
        ⟨q, lineLocation id, topic⟩ :: extract_evidence_from_line_ids rest line_map topic
      else
        extract_evidence_from_line_ids rest line_map topic
    | none => extract_evidence_from_line_ids rest line_map topic

/-- JSON values as `json.loads` produces them; numbers keep their source
lexeme (the claims only compare concrete parses, never numeric values). -/
inductive Json where
  | null
  | bool (b : Bool)
  | num (lexeme : List Char)
  | str (s : List Char)
  | arr (elems : List Json)
  | obj (members : List (List Char × Json))
deriving Repr

/-- JSON inter-token whitespace (the four characters `json` skips). -/
def jsonWs (c : Char) : Bool :=
  c = ' ' || c = '\t' || c = '\n' || c = '\r'

/-- Skip leading JSON whitespace. -/
def skipWs (s : List Char) : List Char := s.dropWhile jsonWs

/-- True for the ten decimal digit characters. -/
def isDigitCh (c : Char) : Bool := '0' ≤ c && c ≤ '9'

/-- Numeric value of a hex digit, if any. -/
def hexVal (c : Char) : Option Nat :=
  if isDigitCh c then some (c.toNat - 48)
  else if 'a' ≤ c && c ≤ 'f' then some (c.toNat - 87)
  else if 'A' ≤ c && c ≤ 'F' then some (c.toNat - 55)
  else none

/-- Optional fraction part of a JSON number: consumes `.` followed by at
least one digit, else consumes nothing. -/
def numFrac (s : List Char) : List Char × List Char :=
  match s with
  | '.' :: t =>
    let ds := t.takeWhile isDigitCh
    if ds = [] then ([], s) else ('.' :: ds, t.dropWhile isDigitCh)
  | _ => ([], s)

/-- Optional exponent part of a JSON number: consumes `e`/`E`, optional
sign, at least one digit, else consumes nothing. -/
def numExp (s : List Char) : List Char × List Char :=
  match s with
  | c :: t =>
    if c = 'e' || c = 'E' then
      let (sg, t1) :=
        match t with
        | '+' :: u => (['+'], u)
        | '-' :: u => (['-'], u)
        | _ => ([], t)
      let ds := t1.takeWhile isDigitCh
      if ds = [] then ([], s) else (c :: sg ++ ds, t1.dropWhile isDigitCh)
    else ([], s)
  | [] => ([], s)

/-- Parse a JSON number lexeme: optional `-`, integer part with no leading
zeros, optional fraction and exponent.  Returns the lexeme and the rest. -/
def parseNumLex (s : List Char) : Option (List Char × List Char) :=
  let (sign, s1) :=
    match s with
    | '-' :: t => (['-'], t)
    | _ => ([], s)
  match s1 with
  | [] => none
  | c :: t =>
    if c = '0' then
      let (fr, r1) := numFrac t
      let (ex, r2) := numExp r1
      some (sign ++ [c] ++ fr ++ ex, r2)
    else if isDigitCh c then
      let ds := t.takeWhile isDigitCh
      let (fr, r1) := numFrac (t.dropWhile isDigitCh)
      let (ex, r2) := numExp r1
      some (sign ++ c :: ds ++ fr ++ ex, r2)
    else none

/-- Parse the body of a JSON string after the opening quote: decodes the
standard escapes, rejects raw control characters, stops at the closing
quote.  Returns the decoded characters and the rest of the input. -/
def parseStrBody : List Char → Option (List Char × List Char)
  | [] => none
  | '"' :: t => some ([], t)
  | '\\' :: e :: t =>
    match e with
    | '"' => (parseStrBody t).map (fun p => ('"' :: p.1, p.2))
    | '\\' => (parseStrBody t).map (fun p => ('\\' :: p.1, p.2))
    | '/' => (parseStrBody t).map (fun p => ('/' :: p.1, p.2))
    | 'b' => (parseStrBody t).map (fun p => ('\x08' :: p.1, p.2))
    | 'f' => (parseStrBody t).map (fun p => ('\x0c' :: p.1, p.2))
    | 'n' => (parseStrBody t).map (fun p => ('\n' :: p.1, p.2))
    | 'r' => (parseStrBody t).map (fun p => ('\r' :: p.1, p.2))
    | 't' => (parseStrBody t).map (fun p => ('\t' :: p.1, p.2))
    | 'u' =>
      match t with
      | a :: b :: c :: d :: t2 =>
        match hexVal a, hexVal b, hexVal c, hexVal d with
        | some ha, some hb, some hc, some hd =>
          let code := ((ha * 16 + hb) * 16 + hc) * 16 + hd
          (parseStrBody t2).map (fun p => (Char.ofNat code :: p.1, p.2))
        | _, _, _, _ => none
      | _ => none
    | _ => none
  | c :: t =>
    if c.toNat < 32 then none
    else (parseStrBody t).map (fun p => (c :: p.1, p.2))

mutual

/-- Parse one JSON value (fuelled recursion; fuel bounds nesting and
member counts, and `input.length + 1` always suffices). -/
def parseValue : Nat → List Char → Option (Json × List Char)
  | 0, _ => none
  | _, [] => none
  | fuel + 1, ch :: t =>
    if ch = '\x7b' then
      match skipWs t with
      | '\x7d' :: r => some (.obj [], r)
      | t1 =>
        match parseMembers fuel t1 with
        | some (kvs, r) => some (.obj kvs, r)
        | none => none
    else if ch = '[' then
      match skipWs t with
      | ']' :: r => some (.arr [], r)
      | t1 =>
        match parseElems fuel t1 with
        | some (xs, r) => some (.arr xs, r)
        | none => none
    else if ch = '"' then
      match parseStrBody t with
      | some (s, r) => some (.str s, r)
      | none => none
    else
      match ch :: t with
      | 't' :: 'r' :: 'u' :: 'e' :: r => some (.bool true, r)
      | 'f' :: 'a' :: 'l' :: 's' :: 'e' :: r => some (.bool false, r)
      | 'n' :: 'u' :: 'l' :: 'l' :: r => some (.null, r)
      | s =>
        match parseNumLex s with
        | some (lex, r) => some (.num lex, r)
        | none => none

/-- Parse the members of a JSON object after the opening brace (at least one). -/
def parseMembers : Nat → List Char → Option (List (List Char × Json) × List Char)
  | 0, _ => none
  | fuel + 1, s =>
    match s with
    | '"' :: t =>
      match parseStrBody t with
      | some (key, r) =>
        match skipWs r with
        | ':' :: r2 =>
          match parseValue fuel (skipWs r2) with
          | some (v, r3) =>
            match skipWs r3 with
            | ',' :: r4 =>
              match parseMembers fuel (skipWs r4) with
              | some (kvs, r5) => some ((key, v) :: kvs, r5)
              | none => none
            | '\x7d' :: r4 => some ([(key, v)], r4)
            | _ => none
          | none => none
        | _ => none
      | none => none
    | _ => none

/-- Parse the elements of a JSON array after the opening bracket (at least one). -/
def parseElems : Nat → List Char → Option (List Json × List Char)
  | 0, _ => none
  | fuel + 1, s =>
    match parseValue fuel s with
    | some (v, r) =>
      match skipWs r with
      | ',' :: r2 =>
        match parseElems fuel (skipWs r2) with
        | some (xs, r3) => some (v :: xs, r3)
        | none => none
      | ']' :: r2 => some ([v], r2)
      | _ => none
    | none => none

end

/-- `json.loads`: one JSON value surrounded only by whitespace,
`none` on any syntax error or trailing data. -/
def parseJson (s : List Char) : Option Json :=
  match parseValue (s.length + 1) (skipWs s) with
  | some (v, rest) => if skipWs rest = [] then some v else none
  | none => none

/-- Python `text.startswith(p)` on character lists. -/
def startsWithCh (p t : List Char) : Bool := t.take p.length = p

/-- The markdown-fence stripping step of `must_json` (src/main.py lines
98-104): when the text begins with three backticks, drop the first line,
drop the last line too when its stripped form is the closing fence,
re-strip, and drop a leading `json` language tag. -/
def stripFence (t : List Char) : List Char :=
  if startsWithCh "```".data t then
    let lines := splitOnNl t
    let kept :=
      if pyStrip ((lines.getLast?).getD []) = "```".data then
        (lines.drop 1).dropLast
      else
        lines.drop 1
    let body := pyStrip (joinNl kept)
    if startsWithCh "json".data body then pyStrip (body.drop 4) else body
  else t

/-- The brace scan of `must_json` (src/main.py lines 110-119): walk the
text from the first brace, tracking raw nesting depth over every brace
character; report the length of the prefix at which depth returns to
zero, or `none` when it never does. -/
def braceScanEnd (pos : Nat) (count : Int) : List Char → Option Nat
  | [] => none
  | c :: cs =>
    if c = '\x7b' then braceScanEnd (pos + 1) (count + 1) cs
    else if c = '\x7d' then
      if count - 1 = 0 then some (pos + 1)
      else braceScanEnd (pos + 1) (count - 1) cs
    else braceScanEnd (pos + 1) count cs

/-- The brace-slicing step of `must_json` (src/main.py lines 107-121):
when the text contains a brace, cut from the first `{` to where raw
brace depth returns to zero; if depth never returns to zero, or there is
no brace at all, leave the text unchanged. -/
def braceSlice (t : List Char) : List Char :=
  if t.any (fun c => c = '\x7b') then
    let suffix := t.dropWhile (fun c => c ≠ '\x7b')
    match braceScanEnd 0 0 suffix with
    | some len => suffix.take len
    | none => t
  else t

/-- `must_json` from src/main.py: strip, remove a code fence, slice to
the first balanced brace span, and parse; on parse failure the offending
processed text is surfaced as the error payload. -/
def must_json (text : List Char) : Except (List Char) Json :=
  match parseJson (braceSlice (stripFence (pyStrip text))) with
  | some v => Except.ok v
  | none => Except.error (braceSlice (stripFence (pyStrip text)))

/-- The extraction reply as `main` reads it after `must_json`: the two
per-topic line-id lists (defaulted to `[]` when absent) and the opaque
`not_found` list. -/
structure ExtractReply where
  index_test_blinding_line_ids : List Nat
  threshold_line_ids : List Nat
  not_found : List Json

/-- The verified-evidence object built by `main` (src/main.py lines
159-180). -/
structure Extracted where
  study_id : List Char
  evidence_quotes : List EvidenceRecord
  not_found : List Json

/-- The fixed study identifier from src/main.py. -/
def STUDY_ID : List Char := "smith_2022".data

/-- The evidence-assembly step of `main` (src/main.py lines 159-180):
resolve the two topic groups against the line map in the fixed order
index_test_blinding then threshold, and carry `not_found` through. -/
def assembleEvidence (line_map : List (Nat × List Char)) (r : ExtractReply) : Extracted :=
  { study_id := STUDY_ID
    evidence_quotes :=
      extract_evidence_from_line_ids r.index_test_blinding_line_ids line_map
          "index_test_blinding".data
        ++ extract_evidence_from_line_ids r.threshold_line_ids line_map
          "threshold".data
    not_found := r.not_found }

/-! Helper lemmas about line splitting, joining and numbering. -/

theorem splitOnNl_ne_nil (t : List Char) : splitOnNl t ≠ [] := by
  induction t with
  | nil => simp [splitOnNl]
  | cons c cs ih =>
    rw [splitOnNl]
    split
    · simp
    · split <;> simp

theorem splitOnNl_length (t : List Char) :
    (splitOnNl t).length = t.count '\n' + 1 := by
  induction t with
  | nil => simp [splitOnNl]
  | cons c cs ih =>
    rw [splitOnNl]
    by_cases hc : c = '\n'
    · subst hc
      simp [List.count_cons, ih]
    · rcases e : splitOnNl cs with _ | ⟨l, ls⟩
      · exact absurd e (splitOnNl_ne_nil cs)
      · rw [if_neg hc]
        show ((c :: l) :: ls).length = (c :: cs).count '\n' + 1
        rw [e] at ih
        have hcount : (c :: cs).count '\n' = cs.count '\n' := by
          simp [List.count_cons, hc]
        rw [hcount]
        simp only [List.length_cons] at ih ⊢
        omega

theorem no_nl_of_mem_splitOnNl {t l : List Char} (h : l ∈ splitOnNl t) :
    '\n' ∉ l := by
  induction t generalizing l with
  | nil =>
    simp [splitOnNl] at h
    subst h; simp
  | cons c cs ih =>
    rw [splitOnNl] at h
    by_cases hc : c = '\n'
    · rw [if_pos hc] at h
      rcases List.mem_cons.mp h with h | h
      · subst h; simp
      · exact ih h
    · rcases e : splitOnNl cs with _ | ⟨m, ms⟩
      · exact absurd e (splitOnNl_ne_nil cs)
      · rw [if_neg hc, e] at h
        rcases List.mem_cons.mp h with h | h
        · subst h
          intro hm
          rcases List.mem_cons.mp hm with hm | hm
          · exact hc hm.symm
          · have : m ∈ splitOnNl cs := by rw [e]; exact List.mem_cons_self m ms
            exact ih this hm
        · have : l ∈ splitOnNl cs := by rw [e]; exact List.mem_cons_of_mem m h
          exact ih this

theorem splitOnNl_append_nl (t : List Char) :
    splitOnNl (t ++ ['\n']) = splitOnNl t ++ [[]] := by
  induction t with
  | nil => simp [splitOnNl]
  | cons c cs ih =>
    by_cases hc : c = '\n'
    · subst hc
      rw [List.cons_append, splitOnNl, if_pos rfl, ih, splitOnNl, if_pos rfl]
      rfl
    · rw [List.cons_append, splitOnNl, if_neg hc, ih, splitOnNl, if_neg hc]
      rcases e : splitOnNl cs with _ | ⟨m, ms⟩
      · exact absurd e (splitOnNl_ne_nil cs)
      · simp [e]

theorem splitOnNl_of_no_nl {l : List Char} (h : '\n' ∉ l) :
    splitOnNl l = [l] := by
  induction l with
  | nil => simp [splitOnNl]
  | cons c cs ih =>
    have hc : c ≠ '\n' := fun e => h (e ▸ List.mem_cons_self c cs)
    have hcs : '\n' ∉ cs := fun m => h (List.mem_cons_of_mem c m)
    rw [splitOnNl, if_neg hc, ih hcs]

theorem splitOnNl_append_cons_nl {l : List Char} (rest : List Char)
    (h : '\n' ∉ l) : splitOnNl (l ++ '\n' :: rest) = l :: splitOnNl rest := by
  induction l with
  | nil => simp [splitOnNl]
  | cons c cs ih =>
    have hc : c ≠ '\n' := fun e => h (e ▸ List.mem_cons_self c cs)
    have hcs : '\n' ∉ cs := fun m => h (List.mem_cons_of_mem c m)
    rw [List.cons_append, splitOnNl, if_neg hc, ih hcs]

theorem splitOnNl_joinNl : ∀ (ls : List (List Char)), ls ≠ [] →
    (∀ l ∈ ls, '\n' ∉ l) → splitOnNl (joinNl ls) = ls
  | [], h, _ => absurd rfl h
  | [l], _, hm => by
    rw [joinNl, splitOnNl_of_no_nl (hm l (List.mem_singleton.mpr rfl))]
  | l :: m :: ms, _, hm => by
    show splitOnNl (l ++ '\n' :: joinNl (m :: ms)) = l :: m :: ms
    have hl : '\n' ∉ l := hm l (List.mem_cons_self _ _)
    rw [splitOnNl_append_cons_nl (joinNl (m :: ms)) hl]
    have := splitOnNl_joinNl (m :: ms) (List.cons_ne_nil m ms)
      (fun x hx => hm x (List.mem_cons_of_mem l hx))
    rw [this]

theorem digitChar_ne_nl (n : Nat) : digitChar n ≠ '\n' := by
  unfold digitChar
  split <;> decide

theorem natDigitsAux_no_nl : ∀ (fuel n : Nat), '\n' ∉ natDigitsAux fuel n := by
  intro fuel
  induction fuel with
  | zero => intro n; simp [natDigitsAux]
  | succ fuel ih =>
    intro n
    rw [natDigitsAux]
    split
    · intro h
      rw [List.mem_singleton] at h
      exact digitChar_ne_nl n h.symm
    · intro h
      rcases List.mem_append.mp h with h | h
      · exact ih (n / 10) h
      · rw [List.mem_singleton] at h
        exact digitChar_ne_nl (n % 10) h.symm

theorem lineTag_no_nl (i : Nat) : '\n' ∉ lineTag i := by
  intro h
  rw [lineTag] at h
  rcases List.mem_append.mp h with h | h
  · rcases List.mem_append.mp h with h | h
    · revert h; decide
    · exact natDigitsAux_no_nl (i + 1) i h
  · revert h; decide

theorem numberAux_fst : ∀ (ls : List (List Char)) (i : Nat),
    (numberAux i ls).1 =
      List.zipWith (fun j l => lineTag j ++ l) (List.range' i ls.length) ls := by
  intro ls
  induction ls with
  | nil => intro i; simp [numberAux]
  | cons l ls ih =>
    intro i
    rw [numberAux]
    simp only [List.length_cons, List.range'_succ, List.zipWith_cons_cons]
    rw [ih (i + 1)]

theorem numberAux_snd : ∀ (ls : List (List Char)) (i : Nat),
    (numberAux i ls).2 = (List.range' i ls.length).zip (ls.map pyStrip) := by
  intro ls
  induction ls with
  | nil => intro i; simp [numberAux]
  | cons l ls ih =>
    intro i
    rw [numberAux]
    simp only [List.length_cons, List.range'_succ, List.map_cons, List.zip_cons_cons]
    rw [ih (i + 1)]

theorem lookup_mem {β : Type} : ∀ {l : List (Nat × β)} {k : Nat} {v : β},
    l.lookup k = some v → (k, v) ∈ l := by
  intro l
  induction l with
  | nil => intro k v h; simp [List.lookup] at h
  | cons p rest ih =>
    intro k v h
    rcases p with ⟨a, b⟩
    rw [List.lookup_cons] at h
    split at h
    · next heq =>
      cases h
      have : k = a := by simpa using heq
      subst this
      exact List.mem_cons_self _ _
    · exact List.mem_cons_of_mem _ (ih h)

theorem extract_mem : ∀ {ids : List Nat} {m : List (Nat × List Char)}
    {t : List Char} {r : EvidenceRecord},
    r ∈ extract_evidence_from_line_ids ids m t →
    r.quote ≠ [] ∧ ∃ id, m.lookup id = some r.quote := by
  intro ids
  induction ids with
  | nil => intro m t r h; simp [extract_evidence_from_line_ids] at h
  | cons id rest ih =>
    intro m t r h
    rw [extract_evidence_from_line_ids] at h
    split at h
    · rename_i q e
      split at h
      · rename_i hq
        rcases List.mem_cons.mp h with h | h
        · subst h
          exact ⟨hq, id, e⟩
        · exact ih h
      · exact ih h
    · exact ih h

theorem extract_eq_filter_map : ∀ (ids : List Nat) (m : List (Nat × List Char))
    (t : List Char),
    extract_evidence_from_line_ids ids m t =
      (ids.filter fun id => decide ((m.lookup id).getD [] ≠ [])).map
        fun id => ⟨(m.lookup id).getD [], lineLocation id, t⟩ := by
  intro ids
  induction ids with
  | nil => intro m t; rfl
  | cons id rest ih =>
    intro m t
    rcases e : m.lookup id with _ | q
    · simp [extract_evidence_from_line_ids, List.filter_cons, e, ih m t]
    · by_cases hq : q = []
      · subst hq
        simp [extract_evidence_from_line_ids, List.filter_cons, e, ih m t]
      · simp [extract_evidence_from_line_ids, List.filter_cons, e, hq, ih m t]

theorem no_nl_mem_zipWith_tag : ∀ (ls : List (List Char)) (i : Nat),
    (∀ l ∈ ls, '\n' ∉ l) →
    ∀ p ∈ List.zipWith (fun j l => lineTag j ++ l) (List.range' i ls.length) ls,
      '\n' ∉ p := by
  intro ls
  induction ls with
  | nil => intro i _ p hp; simp at hp
  | cons l ls ih =>
    intro i hm p hp
    rw [List.length_cons, List.range'_succ, List.zipWith_cons_cons] at hp
    rcases List.mem_cons.mp hp with hp | hp
    · subst hp
      intro hn
      rcases List.mem_append.mp hn with hn | hn
      · exact lineTag_no_nl i hn
      · exact hm l (List.mem_cons_self _ _) hn
    · exact ih (i + 1) (fun x hx => hm x (List.mem_cons_of_mem _ hx)) p hp

theorem number_lines_keys (text : List Char) :
    (number_lines text).2.map Prod.fst = List.range' 1 (splitOnNl text).length := by
  rw [show (number_lines text).2 =
      (List.range' 1 (splitOnNl text).length).zip ((splitOnNl text).map pyStrip)
    from numberAux_snd (splitOnNl text) 1]
  apply List.map_fst_zip
  rw [List.length_range', List.length_map]

theorem splitOnNl_number_lines_fst (text : List Char) :
    splitOnNl (number_lines text).1 =
      List.zipWith (fun i l => lineTag i ++ l)
        (List.range' 1 (splitOnNl text).length) (splitOnNl text) := by
  rw [show (number_lines text).1 = joinNl (numberAux 1 (splitOnNl text)).1 from rfl,
    numberAux_fst]
  apply splitOnNl_joinNl
  · intro hnil
    apply splitOnNl_ne_nil text
    have hlen := congrArg List.length hnil
    rw [List.length_zipWith, List.length_range'] at hlen
    simp only [min_self, List.length_nil] at hlen
    exact List.length_eq_zero.mp hlen
  · exact no_nl_mem_zipWith_tag (splitOnNl text) 1
      (fun l hl => no_nl_of_mem_splitOnNl hl)

theorem number_lines_snd_append_nl (text : List Char) :
    (number_lines (text ++ ['\n'])).2 =
      (number_lines text).2 ++ [(text.count '\n' + 2, [])] := by
  rw [show (number_lines (text ++ ['\n'])).2 =
      (numberAux 1 (splitOnNl (text ++ ['\n']))).2 from rfl,
    show (number_lines text).2 = (numberAux 1 (splitOnNl text)).2 from rfl,
    splitOnNl_append_nl, numberAux_snd, numberAux_snd, List.map_append,
    List.length_append, List.length_cons, List.length_nil, Nat.zero_add,
    List.range'_concat,
    List.zip_append (by rw [List.length_range', List.length_map])]
  congr 1
  rw [splitOnNl_length]
  show [(1 + 1 * (text.count '\n' + 1), pyStrip [])] = [(text.count '\n' + 2, [])]
  have h1 : 1 + 1 * (text.count '\n' + 1) = text.count '\n' + 2 := by omega
  rw [h1]
  rfl

/-! The claims. -/

/-- Claim C1: for every document text, list of proposed line ids and topic,
every record produced by number_lines followed by
extract_evidence_from_line_ids has a non-empty quote equal to the
whitespace-trimmed text of some line of the original document. -/
theorem claim_C1_grounding_invariant (text : List Char) (ids : List Nat)
    (topic : List Char) (r : EvidenceRecord)
    (h : r ∈ extract_evidence_from_line_ids ids (number_lines text).2 topic) :
    r.quote ≠ [] ∧ ∃ l ∈ splitOnNl text, r.quote = pyStrip l := by
  obtain ⟨hne, id, hl⟩ := extract_mem h
  refine ⟨hne, ?_⟩
  rw [show (number_lines text).2 =
      (List.range' 1 (splitOnNl text).length).zip ((splitOnNl text).map pyStrip)
    from numberAux_snd (splitOnNl text) 1] at hl
  have hq : r.quote ∈ (splitOnNl text).map pyStrip :=
    (List.of_mem_zip (lookup_mem hl)).2
  rcases List.mem_map.mp hq with ⟨l, hlm, heq⟩
  exact ⟨l, hlm, heq.symm⟩

/-- Witness for C1 at a concrete two-line document. -/
theorem claim_C1_witness :
    (⟨"hi".data, "Line 1".data, "t".data⟩ : EvidenceRecord).quote ≠ [] ∧
    ∃ l ∈ splitOnNl "hi\nx".data,
      (⟨"hi".data, "Line 1".data, "t".data⟩ : EvidenceRecord).quote = pyStrip l :=
  claim_C1_grounding_invariant "hi\nx".data [1] "t".data _ (by decide)

/-- Claim C2 counterexample: a line map may carry text that is non-empty
but blank after trimming; the code keeps such an identifier (the mapped
text is truthy) even though the claim, which asks for text non-empty
after trimming, requires it to be dropped. -/
theorem claim_C2_counterexample :
    pyStrip [' '] = [] ∧
    extract_evidence_from_line_ids [1] [(1, [' '])] [] =
      [⟨[' '], "Line 1".data, []⟩] :=
  ⟨rfl, rfl⟩

/-- Claim C2 as amended: a record is returned per candidate identifier
iff it is a key of the map whose mapped text is non-empty (with no
further trimming applied by the resolver), in input order with no
deduplication; and on the concrete map alpha-blank-gamma with ids
1,2,3,4,99 only ids 1 and 3 survive. -/
theorem claim_C2_amended :
    (∀ (ids : List Nat) (m : List (Nat × List Char)) (t : List Char),
      extract_evidence_from_line_ids ids m t =
        (ids.filter fun id => decide ((m.lookup id).getD [] ≠ [])).map
          fun id => ⟨(m.lookup id).getD [], lineLocation id, t⟩) ∧
    extract_evidence_from_line_ids [1, 2, 3, 4, 99]
        [(1, "alpha".data), (2, []), (3, "gamma".data)] "topic".data =
      [⟨"alpha".data, "Line 1".data, "topic".data⟩,
       ⟨"gamma".data, "Line 3".data, "topic".data⟩] :=
  ⟨extract_eq_filter_map, by decide⟩

/-- Claim C3: must_json recovers the object with member a mapped to 1
from the bare object, the prose-wrapped object and the fenced block, and
returns the nested object unmutated. -/
theorem claim_C3_extraction_robustness :
    must_json "\x7b\"a\": 1\x7d".data =
      Except.ok (Json.obj [("a".data, Json.num ['1'])]) ∧
    must_json "Sure! \x7b\"a\": 1\x7d Hope that helps.".data =
      Except.ok (Json.obj [("a".data, Json.num ['1'])]) ∧
    must_json "```json\n\x7b\"a\": 1\x7d\n```".data =
      Except.ok (Json.obj [("a".data, Json.num ['1'])]) ∧
    must_json "\x7b\"a\": \x7b\"b\": 1\x7d\x7d".data =
      Except.ok (Json.obj [("a".data, Json.obj [("b".data, Json.num ['1'])])]) :=
  ⟨rfl, rfl, rfl, rfl⟩

/-- Claim C4 evaluation: the input consisting of the single digit 3
contains no opening brace, yet must_json succeeds and returns the JSON
number 3 rather than failing. -/
theorem claim_C4_scalar_json_returned :
    '\x7b' ∉ ['3'] ∧ must_json ['3'] = Except.ok (Json.num ['3']) :=
  ⟨by decide, rfl⟩

/-- Claim C5: for every document text with N lines, the line map keys
are exactly 1..N in order, and the numbered rendering splits back into
exactly N lines where line i is the tag for i followed by the original
untrimmed line. -/
theorem claim_C5_line_count_invariant (text : List Char) :
    (number_lines text).2.map Prod.fst = List.range' 1 (splitOnNl text).length ∧
    (splitOnNl (number_lines text).1).length = (splitOnNl text).length ∧
    splitOnNl (number_lines text).1 =
      List.zipWith (fun i l => lineTag i ++ l)
        (List.range' 1 (splitOnNl text).length) (splitOnNl text) := by
  refine ⟨number_lines_keys text, ?_, splitOnNl_number_lines_fst text⟩
  rw [splitOnNl_number_lines_fst text, List.length_zipWith, List.length_range',
    min_self]

/-- Claim C6 counterexample: on the empty string the line map is not
empty; it carries the single key 1 (mapped to the empty string). -/
theorem claim_C6_counterexample : (number_lines []).2 ≠ [] := by decide

/-- Claim C6 as amended: number_lines is total by construction, and on
the empty string it returns the map with the single key 1 mapped to the
empty string, and a rendering that is the single line consisting of the
line-1 tag followed by the empty line. -/
theorem claim_C6_amended :
    (number_lines []).1 = "[LINE_1] ".data ∧ (number_lines []).2 = [(1, [])] := by
  decide

/-- Claim C7: the verified evidence concatenates the two per-topic
resolver results in the fixed order index_test_blinding then threshold
and passes not_found through unchanged; on the concrete two-line
document with reply ids 1 and 2, the evidence is the two expected
records. -/
theorem claim_C7_pipeline_assembly :
    (∀ (m : List (Nat × List Char)) (r : ExtractReply),
      (assembleEvidence m r).evidence_quotes =
        extract_evidence_from_line_ids r.index_test_blinding_line_ids m
            "index_test_blinding".data ++
          extract_evidence_from_line_ids r.threshold_line_ids m
            "threshold".data ∧
      (assembleEvidence m r).not_found = r.not_found) ∧
    (assembleEvidence
        (number_lines "Blinded assessors.\nThreshold was 5mg.\n".data).2
        ⟨[1], [2], []⟩).evidence_quotes =
      [⟨"Blinded assessors.".data, "Line 1".data, "index_test_blinding".data⟩,
       ⟨"Threshold was 5mg.".data, "Line 2".data, "threshold".data⟩] :=
  ⟨fun m r => ⟨rfl, rfl⟩, by decide⟩

/-- Claim C8: whenever the processed span fails to parse as JSON,
must_json surfaces exactly that offending text as the error payload and
never returns a substitute value. -/
theorem claim_C8_malformed_surfacing (text : List Char)
    (h : parseJson (braceSlice (stripFence (pyStrip text))) = none) :
    must_json text = Except.error (braceSlice (stripFence (pyStrip text))) ∧
    ∀ v, must_json text ≠ Except.ok v := by
  have he : must_json text =
      Except.error (braceSlice (stripFence (pyStrip text))) := by
    simp only [must_json, h]
  exact ⟨he, fun v hv => by rw [he] at hv; cases hv⟩

/-- Witness for C8 at a concrete unparseable input. -/
theorem claim_C8_witness :
    must_json "\x7boops\x7d".data = Except.error "\x7boops\x7d".data ∧
    ∀ v, must_json "\x7boops\x7d".data ≠ Except.ok v :=
  claim_C8_malformed_surfacing "\x7boops\x7d".data rfl

/-- Claim C9: the brace scanner counts braces inside string literals, so
an input that is itself one valid JSON object whose string value
contains a closing brace is sliced short and must_json fails. -/
theorem claim_C9_brace_scan_in_strings :
    parseJson "\x7b\"a\": \"\x7d\"\x7d".data =
      some (Json.obj [("a".data, Json.str "\x7d".data)]) ∧
    must_json "\x7b\"a\": \"\x7d\"\x7d".data =
      Except.error "\x7b\"a\": \"\x7d".data :=
  ⟨rfl, rfl⟩

/-- Claim C10: the line map has newline-count plus one entries; a
document ending in a newline gains a final identifier mapped to the
empty string; and the resolver never emits a record with an empty
quote. -/
theorem claim_C10_newline_count (text : List Char) :
    (number_lines text).2.length = text.count '\n' + 1 ∧
    (number_lines (text ++ ['\n'])).2 =
      (number_lines text).2 ++ [(text.count '\n' + 2, [])] ∧
    ∀ (ids : List Nat) (m : List (Nat × List Char)) (t : List Char)
      (r : EvidenceRecord),
      r ∈ extract_evidence_from_line_ids ids m t → r.quote ≠ [] := by
  refine ⟨?_, number_lines_snd_append_nl text,
    fun ids m t r h => (extract_mem h).1⟩
  rw [show (number_lines text).2 =
      (List.range' 1 (splitOnNl text).length).zip ((splitOnNl text).map pyStrip)
    from numberAux_snd (splitOnNl text) 1]
  rw [List.length_zip, List.length_range', List.length_map, min_self,
    splitOnNl_length]

/-- Witness for C10: a record produced at a concrete input has a
non-empty quote. -/
theorem claim_C10_witness :
    (⟨['a'], "Line 1".data, []⟩ : EvidenceRecord).quote ≠ [] :=
  (claim_C10_newline_count []).2.2 [1] [(1, ['a'])] [] _ (by decide)
